import Mathlib

/-!
# Verification of the SVG normalization and rasterization pipeline

Shallow embedding of `src/index.ts` of the `react-image-svg` repository.
Each definition mirrors one source function; theorems settle the claims of
the specification against these definitions.
-/

namespace ReactImageSvg

/-! ## Enumerations (src/index.ts lines 5-14)

`ImageFormat` and `ImageOutput` are TypeScript string enums.  At runtime a
caller can pass any string (the orchestrator re-validates with
`Object.values(...).includes(...)`), so we model format/output values as
strings together with the lists of valid enum values. -/

/-- `Object.values(ImageFormat)` — the valid format strings. -/
def imageFormatValues : List String := ["png", "jpeg", "webp"]

/-- `Object.values(ImageOutput)` — the valid output strings. -/
def imageOutputValues : List String := ["data_url", "blob"]

/-! ## Options (src/index.ts lines 16-24, defaults from lines 76-82) -/

/-- The `RenderSvgAsImageOptions` object after destructuring-with-defaults
(src/index.ts lines 75-83).  Fields irrelevant to control flow (the element,
the selector strings) are kept abstract where the claims need them. -/
structure RenderOpts where
  format : String
  injectSelector : String
  output : String
  scale : ℚ
  quality : ℚ
  throwErrors : Bool
  ignoreAllSelectors : List String
deriving DecidableEq, Repr

/-- The declared defaults of `renderSvgAsImage`'s destructuring pattern
(src/index.ts lines 76-82). -/
def defaultOpts : RenderOpts :=
  { format := "png"
    injectSelector := "body"
    output := "data_url"
    scale := 1
    quality := 97/100
    throwErrors := true
    ignoreAllSelectors := [] }

/-! ## Environment

The outcomes of the external collaborators a single `renderSvgAsImage` run
observes, in the order the source consults them. -/

/-- External-world outcomes observed by one pipeline run. -/
structure Env where
  /-- `renderAsPromise` has been registered via `setDomRenderer`
  (src/index.ts line 86: `if (!renderAsPromise)`). -/
  rendererRegistered : Bool
  /-- `document.querySelector(injectSelector)` finds a root
  (src/index.ts lines 92-95). -/
  rootFound : Bool
  /-- the awaited `renderAsPromise(el, injectorContainer)` resolves
  (src/index.ts lines 104-110; `false` = it rejects). -/
  renderResolves : Bool
  /-- `injectorContainer.querySelector("svg")` finds an element
  (src/index.ts lines 112-116). -/
  svgFound : Bool
  /-- `canvas.getContext("2d")` returns a context
  (src/index.ts lines 236-239). -/
  canvasCtxOk : Bool
  /-- the `<img>` decode of the SVG data URI succeeds, i.e. `img.onload`
  fires (src/index.ts lines 247-255; `false` = the decode fails, which fires
  only `onerror` — for which the source installs no handler). -/
  decodeOk : Bool
  /-- `canvas.toBlob` produces a non-null blob (src/index.ts lines 292-300;
  only consulted for blob output, lines 270-273). -/
  encodeOk : Bool
deriving DecidableEq, Repr

/-! ## Run results -/

/-- Errors thrown by the pipeline, one per `throw` site of the source. -/
inductive PipeErr where
  /-- "You must call setDomRenderer before calling renderSvgAsImage" (line 87) -/
  | notRegistered
  /-- "Could not find element with selector ..." (line 94) -/
  | rootNotFound
  /-- "Invalid image format ..." (line 97) -/
  | invalidFormat
  /-- "Invalid image output ..." (line 100) -/
  | invalidOutput
  /-- the renderer's own rejection reason, re-thrown at line 109 -/
  | renderFailed
  /-- "Could not find a rendered SVG" (line 115) -/
  | noSvg
  /-- "Could not get canvas context" (line 238) -/
  | noCanvasContext
  /-- "Could not convert canvas to blob" (line 272) -/
  | encodeFailed
  /-- the TypeError raised by destructuring an absent options argument -/
  | typeError
deriving DecidableEq, Repr

/-- The artifact a successful run resolves with: a data-URL string or a
binary blob (src/index.ts line 84: `Promise<string | Blob>`). -/
inductive Artifact where
  | str (s : String)
  | blob
deriving DecidableEq, Repr

/-- How the promise returned by `renderSvgAsImage` settles — or fails to:
`pending` records a promise that never settles. -/
inductive RunResult where
  | resolved (a : Artifact)
  | rejected (e : PipeErr)
  | pending
deriving DecidableEq, Repr

/-- Observable outcome of one run: how the promise settles, plus the
document mutations performed (number of temporary injector containers
appended to / removed from the injector root during the run). -/
structure RunState where
  result : RunResult
  containerAdds : Nat
  containerRemoves : Nat
deriving DecidableEq, Repr

/-- The `catch (e)` block of `renderSvgAsImage` (src/index.ts lines
126-133): re-throw when `throwErrors`, otherwise log and resolve with the
empty string. -/
def catchBlock (throwErrors : Bool) (e : PipeErr) : RunResult :=
  if throwErrors then .rejected e else .resolved (.str "")

/-! ## The orchestrator (src/index.ts lines 73-134)

`renderSvgAsImageRun` mirrors the source's control flow step by step:

* validation (lines 86-101) happens before `getInjectorContainer`
  (line 102) appends the container;
* a renderer rejection (lines 104-110) and a missing SVG (lines 112-116)
  each remove the container and throw;
* `copyToCanvas` (line 120) throws synchronously when `getContext` fails
  (lines 236-239) — that throw reaches the outer catch with **no**
  `removeInjectorContainer` call on the way;
* when the image decode fails, `copyToCanvas`'s promise has installed only
  an `onload` handler (lines 247-255), so the awaited promise — and hence
  the whole run — never settles;
* `toOutput` (line 121) is called **without** `await`; its promise is
  stored in `returnValue`, the container is removed (line 123) and the
  promise is returned (line 125).  A rejection of that promise is adopted
  by the async function's returned promise *after* the `try` block has
  exited, so it bypasses the catch block entirely. -/
def renderSvgAsImageRun (env : Env) (o : RenderOpts) : RunState :=
  if ¬ env.rendererRegistered then
    ⟨catchBlock o.throwErrors .notRegistered, 0, 0⟩
  else if ¬ env.rootFound then
    ⟨catchBlock o.throwErrors .rootNotFound, 0, 0⟩
  else if ¬ imageFormatValues.contains o.format then
    ⟨catchBlock o.throwErrors .invalidFormat, 0, 0⟩
  else if ¬ imageOutputValues.contains o.output then
    ⟨catchBlock o.throwErrors .invalidOutput, 0, 0⟩
  else
    -- line 102: getInjectorContainer appends the container (one add)
    if ¬ env.renderResolves then
      ⟨catchBlock o.throwErrors .renderFailed, 1, 1⟩
    else if ¬ env.svgFound then
      ⟨catchBlock o.throwErrors .noSvg, 1, 1⟩
    else if ¬ env.canvasCtxOk then
      -- synchronous throw inside copyToCanvas; no cleanup on this path
      ⟨catchBlock o.throwErrors .noCanvasContext, 1, 0⟩
    else if ¬ env.decodeOk then
      -- only img.onload is installed; the promise never settles
      ⟨.pending, 1, 0⟩
    else if o.output = "blob" ∧ ¬ env.encodeOk then
      -- toOutput's promise rejects; container already removed (line 123);
      -- the un-awaited rejection bypasses the catch block
      ⟨.rejected .encodeFailed, 1, 1⟩
    else
      ⟨.resolved (if o.output = "data_url" then .str "dataUrl" else .blob), 1, 1⟩

/-- The published declaration (index.d.ts) marks the options parameter
optional (`options?: RenderSvgAsImageOptions`), but the implementation's
parameter is a destructuring pattern with **no** default object
(src/index.ts lines 75-83).  Calling with the options argument omitted
destructures `undefined`, which raises a TypeError during parameter
binding — before the function body's `try` is entered — so, per JS
semantics for async functions, the returned promise rejects with that
TypeError and no document mutation or catch-block suppression occurs. -/
def renderSvgAsImageCall (env : Env) (opts : Option RenderOpts) : RunState :=
  match opts with
  | none => ⟨.rejected .typeError, 0, 0⟩
  | some o => renderSvgAsImageRun env o

/-- Whether the four validation checks of lines 86-101 all pass. -/
def validConfig (env : Env) (o : RenderOpts) : Prop :=
  env.rendererRegistered = true ∧ env.rootFound = true ∧
    imageFormatValues.contains o.format = true ∧
    imageOutputValues.contains o.output = true

instance (env : Env) (o : RenderOpts) : Decidable (validConfig env o) := by
  unfold validConfig; infer_instance

/-! ## The injector container (src/index.ts lines 140-166)

`getInjectorContainer` appends a fresh hidden `<div>` carrying the marker
attribute `data-react-svg-image-injector-container` set to the run's
`renderId`; `removeInjectorContainer` looks the container up by that
attribute value and removes it, logging (not throwing) when it is absent.
We model the injector root by its ordered list of children; a child is an
element carrying an optional marker value (children added by other code
have none) plus an opaque payload distinguishing it. -/

/-- A child of the injector root: `marker` is the value of the
`data-react-svg-image-injector-container` attribute when present, and
`payload` stands for everything else about the element. -/
structure Child where
  marker : Option String
  payload : Nat
deriving DecidableEq, Repr

/-- The injector root, as its ordered list of children. -/
structure Root where
  children : List Child
deriving DecidableEq, Repr

/-- `getInjectorContainer` (src/index.ts lines 140-152): create a `<div>`
with the marker attribute set to `renderId` and append it to the root. -/
def getInjectorContainer (root : Root) (renderId : String) : Root × Child :=
  let injectorContainer : Child := ⟨some renderId, 0⟩
  (⟨root.children ++ [injectorContainer]⟩, injectorContainer)

/-- `injectorRoot.querySelector(`[data-...-container="${renderId}"]`)`:
the first child whose marker equals `renderId`, if any. -/
def queryContainer (root : Root) (renderId : String) : Option Child :=
  root.children.find? (fun c => c.marker = some renderId)

/-- `removeChild`: remove the first occurrence of `c` from the root. -/
def removeChild (root : Root) (c : Child) : Root :=
  ⟨root.children.eraseP (fun x => x = c)⟩

/-- `removeInjectorContainer` (src/index.ts lines 157-166): find the child
with the run's marker and remove it; when none exists, only log an error
(the function returns normally, leaving the root unchanged). -/
def removeInjectorContainer (root : Root) (renderId : String) : Root :=
  match queryContainer root renderId with
  | some injectorContainer => removeChild root injectorContainer
  | none => root

/-! ## Canvas sizing (src/index.ts lines 221-256, `copyToCanvas`)

The source sets `canvas.width = svgSize.width * scale` and
`canvas.height = svgSize.height * scale` where `svgSize` is the live
node's bounding box, and sets the CSS style dimensions to the **unscaled**
`svgSize` values.  `canvas.width`/`height` are WebIDL `unsigned long`
attributes: assigning a JS number truncates it toward zero and reduces it
modulo 2^32.  Dimensions and the scale are modelled as rationals. -/

/-- JS `ToIntegerOrInfinity`-style truncation toward zero of a finite
number. -/
def jsTrunc (q : ℚ) : ℤ :=
  if 0 ≤ q then ⌊q⌋ else -⌊-q⌋

/-- WebIDL `unsigned long` conversion of a finite JS number: truncate
toward zero, then reduce modulo 2^32. -/
def jsToUint32 (q : ℚ) : ℕ :=
  ((jsTrunc q) % (2 ^ 32 : ℤ)).toNat

/-- The pixel surface produced by `copyToCanvas`: integer pixel
dimensions and CSS style dimensions (src/index.ts lines 226-233). -/
structure PixelSurface where
  width : ℕ
  height : ℕ
  styleWidth : ℚ
  styleHeight : ℚ
deriving DecidableEq, Repr

/-- The surface sizing performed by `copyToCanvas` (src/index.ts lines
226-233) for a source bounding box `w × h` and scale factor `s`:
`canvas.width = w * s`, `canvas.height = h * s` (coerced to
`unsigned long`), `canvas.style.width = w + "px"`,
`canvas.style.height = h + "px"`. -/
def copyToCanvasSurface (w h s : ℚ) : PixelSurface :=
  { width := jsToUint32 (w * s)
    height := jsToUint32 (h * s)
    styleWidth := w
    styleHeight := h }

/-! ## The DOM tree (for `normaliseSvg` and `inlineStyles`)

A node carries its tag, attributes, *computed* style (the cascade-resolved
mapping returned by `window.getComputedStyle`, queried live), its explicit
`style` declaration, and its ordered children.  Style maps are ordered
association lists, as `CSSStyleDeclaration` enumerates properties in
order. -/

/-- A DOM element node. -/
inductive DomNode where
  | mk (tag : String) (attrs : List (String × String))
      (computed : List (String × String)) (style : List (String × String))
      (children : List DomNode)

/-- Tag accessor. -/
def DomNode.tag : DomNode → String
  | .mk t _ _ _ _ => t

/-- Attribute-list accessor. -/
def DomNode.attrs : DomNode → List (String × String)
  | .mk _ a _ _ _ => a

/-- Computed-style accessor (`window.getComputedStyle`). -/
def DomNode.computed : DomNode → List (String × String)
  | .mk _ _ cm _ _ => cm

/-- Explicit style-declaration accessor. -/
def DomNode.style : DomNode → List (String × String)
  | .mk _ _ _ st _ => st

/-- Children accessor. -/
def DomNode.children : DomNode → List DomNode
  | .mk _ _ _ _ ch => ch

/-- Reading a property of a style declaration: value of the first entry
with the given key. -/
def lookupStyle : List (String × String) → String → Option String
  | [], _ => none
  | p :: ps, k => if p.1 = k then some p.2 else lookupStyle ps k

/-- JS property assignment on a `CSSStyleDeclaration`
(`target.style[styleKey] = value`): overwrite the existing entry for the
key, or append a new one. -/
def setStyleProp (st : List (String × String)) (k v : String) :
    List (String × String) :=
  if st.any (fun p => p.1 = k) then
    st.map (fun p => if p.1 = k then (k, v) else p)
  else
    st ++ [(k, v)]

/-- The property-copying loop of `inlineStyles` (src/index.ts lines
201-207): iterate the computed style's entries in order, skip
`visibility`, and assign every other property onto the target's style
declaration. -/
def writeStyles (computed : List (String × String))
    (st : List (String × String)) : List (String × String) :=
  computed.foldl
    (fun acc p => if p.1 = "visibility" then acc else setStyleProp acc p.1 p.2)
    st

mutual

/-- `inlineStyles` (src/index.ts lines 199-216): copy the source's
computed style (minus `visibility`) onto the target's style declaration,
then recurse pairwise over the children in document order.  The loop runs
for `source.children.length` iterations, so surplus target children are
left untouched; a surplus **source** child would crash in JS (`undefined`
target) — the `[]` fallback below is unreachable for structurally
congruent trees, which the claims presuppose. -/
def inlineStyles : DomNode → DomNode → DomNode
  | .mk _ _ scm _ sch, .mk t a cm st tch =>
      .mk t a cm (writeStyles scm st) (inlineStylesList sch tch)

/-- Pairwise recursion of `inlineStyles` over child lists. -/
def inlineStylesList : List DomNode → List DomNode → List DomNode
  | [], ts => ts
  | _ :: _, [] => []
  | s :: ss, t :: ts => inlineStyles s t :: inlineStylesList ss ts

end

mutual

/-- Structural congruence: equal child counts at every level (the
precondition of `inlineStyles`). -/
def congruent : DomNode → DomNode → Bool
  | .mk _ _ _ _ sch, .mk _ _ _ _ tch => congruentList sch tch

/-- List version of `congruent`. -/
def congruentList : List DomNode → List DomNode → Bool
  | [], [] => true
  | s :: ss, t :: ts => congruent s t && congruentList ss ts
  | _, _ => false

end

/-- Keys of an association list are pairwise distinct. -/
def keysNodup : List (String × String) → Bool
  | [] => true
  | p :: ps => !(ps.any (fun q => q.1 = p.1)) && keysNodup ps

mutual

/-- Every node's computed-style keys are pairwise distinct (true of a real
`CSSStyleDeclaration`, which enumerates each property once). -/
def nodupComputedTree : DomNode → Bool
  | .mk _ _ cm _ ch => keysNodup cm && nodupComputedList ch

/-- List version of `nodupComputedTree`. -/
def nodupComputedList : List DomNode → Bool
  | [] => true
  | c :: cs => nodupComputedTree c && nodupComputedList cs

end

/-- Node at a path of child indices (the correspondence "same position in
both trees" used to compare source and target nodes). -/
def getPath : DomNode → List Nat → Option DomNode
  | n, [] => some n
  | n, i :: p =>
      match n.children[i]? with
      | some c => getPath c p
      | none => none

/-! ## Selector removal (src/index.ts lines 184-194, `normaliseSvg`)

`normaliseSvg` iterates over `ignoreAllSelectors`; for each selector it
takes a `querySelectorAll` snapshot of the matching descendants and
removes each from its parent (a match inside an already-detached subtree
is removed from the detached parent, which does not change the tree).  The
net effect of one pass is: keep a child iff it did not match at the start
of the pass, and recurse into kept children with their subtrees as at the
start of the pass.

A selector is modelled as a predicate on an element together with its
subtree.  This covers tag/attribute selectors (which read only the element
itself) and subtree-sensitive pseudo-classes such as `:empty` (which reads
the children); ancestor- and sibling-sensitive selectors are outside the
model. -/

/-- A CSS selector, as the matching predicate it denotes. -/
def Selector : Type := DomNode → Bool

mutual

/-- One `querySelectorAll`-snapshot-and-remove pass of `normaliseSvg`
(src/index.ts lines 186-191) for a single selector.  The root itself is
never matched (`querySelectorAll` returns descendants only). -/
def removePass (sel : Selector) : DomNode → DomNode
  | .mk t a cm st ch => .mk t a cm st (removePassList sel ch)

/-- List version of `removePass`: drop children matching the selector (as
snapshotted), recurse into the kept ones. -/
def removePassList (sel : Selector) : List DomNode → List DomNode
  | [] => []
  | c :: cs =>
      if sel c then removePassList sel cs
      else removePass sel c :: removePassList sel cs

end

/-- The removal phase of `normaliseSvg`: one pass per selector, in the
order of `ignoreAllSelectors` (src/index.ts lines 186-191). -/
def removalPhase (selectors : List Selector) (svg : DomNode) : DomNode :=
  selectors.foldl (fun t sel => removePass sel t) svg

/-- `normaliseSvg` (src/index.ts lines 184-194): strip the elements
matching `ignoreAllSelectors`, then inline all computed styles, with the
(mutated) svg as both source and target. -/
def normaliseSvg (svg : DomNode) (selectors : List Selector) : DomNode :=
  let stripped := removalPhase selectors svg
  inlineStyles stripped stripped

/-- Matching any selector of the set. -/
def matchesAny (selectors : List Selector) (n : DomNode) : Bool :=
  selectors.any (fun sel => sel n)

/-- A selector is *intrinsic* when its verdict depends only on the element
itself (tag, attributes, styles), not on its subtree — e.g. tag and
attribute selectors.  Pseudo-classes such as `:empty` are not intrinsic. -/
def Intrinsic (sel : Selector) : Prop :=
  ∀ t a cm st ch ch', sel (.mk t a cm st ch) = sel (.mk t a cm st ch')

mutual

/-- `n` occurs as a proper descendant of `t` (the elements
`querySelectorAll` can see). -/
def occursIn (n : DomNode) : DomNode → Prop
  | .mk _ _ _ _ ch => occursInList n ch

/-- List version of `occursIn`. -/
def occursInList (n : DomNode) : List DomNode → Prop
  | [] => False
  | c :: cs => c = n ∨ occursIn n c ∨ occursInList n cs

end

/-! ## The image-source payload (src/index.ts lines 242-246)

The source builds the `<img>` source as

  `"data:image/svg+xml;base64," + btoa(unescape(encodeURIComponent(svgData)))`.

`encodeURIComponent` percent-encodes the UTF-8 bytes of the string and
`unescape` turns each `%XX` back into the code unit `XX`, so the
composition `unescape(encodeURIComponent(s))` is exactly the UTF-8 byte
sequence of `s`, presented as a Latin-1 string; `btoa` then base64-encodes
those bytes.  We model strings as their character lists and bytes as
naturals below 256. -/

/-- UTF-8 encoding of one Unicode scalar value (the bytes
`encodeURIComponent` percent-encodes). -/
def utf8EncodeChar (c : Char) : List Nat :=
  let v := c.toNat
  if v < 0x80 then [v]
  else if v < 0x800 then [0xC0 + v / 64, 0x80 + v % 64]
  else if v < 0x10000 then
    [0xE0 + v / 4096, 0x80 + v / 64 % 64, 0x80 + v % 64]
  else
    [0xF0 + v / 262144, 0x80 + v / 4096 % 64, 0x80 + v / 64 % 64,
      0x80 + v % 64]

/-- UTF-8 encoding of a string (as its character list). -/
def utf8Encode : List Char → List Nat
  | [] => []
  | c :: cs => utf8EncodeChar c ++ utf8Encode cs

/-- Consume `n` UTF-8 continuation bytes (each in `[0x80, 0xC0)`),
returning their combined payload value and the remaining bytes. -/
def utf8Cont : Nat → List Nat → Option (Nat × List Nat)
  | 0, rest => some (0, rest)
  | _ + 1, [] => none
  | n + 1, b :: rest =>
      if 0x80 ≤ b ∧ b < 0xC0 then
        (utf8Cont n rest).map (fun p => ((b - 0x80) * 64 ^ n + p.1, p.2))
      else none

/-- Parse one UTF-8-encoded scalar value off the front of a byte
sequence: the lead byte determines the continuation count and the
payload's high bits. -/
def utf8ParseOne : List Nat → Option (Nat × List Nat)
  | [] => none
  | b1 :: rest =>
    if b1 < 0x80 then some (b1, rest)
    else if b1 < 0xC0 then none
    else if b1 < 0xE0 then
      (utf8Cont 1 rest).map (fun p => ((b1 - 0xC0) * 64 + p.1, p.2))
    else if b1 < 0xF0 then
      (utf8Cont 2 rest).map (fun p => ((b1 - 0xE0) * 4096 + p.1, p.2))
    else
      (utf8Cont 3 rest).map (fun p => ((b1 - 0xF0) * 262144 + p.1, p.2))

/-- UTF-8 decoding, the inverse reading of `utf8EncodeChar`: parse scalar
values one at a time.  `fuel` bounds the number of characters; since every
parsed character consumes at least one byte, the byte count is enough
fuel. -/
def utf8DecodeFuel : Nat → List Nat → Option (List Char)
  | _, [] => some []
  | 0, _ :: _ => none
  | fuel + 1, b :: rest =>
    match utf8ParseOne (b :: rest) with
    | some (v, rest') =>
        (utf8DecodeFuel fuel rest').map (fun cs => Char.ofNat v :: cs)
    | none => none

/-- UTF-8 decoding of a byte sequence. -/
def utf8Decode (l : List Nat) : Option (List Char) :=
  utf8DecodeFuel l.length l

/-- The base64 alphabet used by `btoa`. -/
def base64Chars : List Char :=
  "ABCDEFGHIJKLMNOPQRSTUVWXYZabcdefghijklmnopqrstuvwxyz0123456789+/".data

/-- The base64 digit for a sextet. -/
def sextetChar (i : Nat) : Char := base64Chars.getD i 'A'

/-- The sextet of a base64 digit (inverse alphabet lookup). -/
def charSextet (c : Char) : Option Nat :=
  go base64Chars
where
  /-- Index of `c` in the remaining alphabet. -/
  go : List Char → Option Nat
    | [] => none
    | a :: as => if a = c then some 0 else (go as).map (· + 1)

/-- `btoa` on a byte sequence: base64-encode in 3-byte groups with `=`
padding. -/
def base64EncodeBytes : List Nat → List Char
  | [] => []
  | [b1] => [sextetChar (b1 / 4), sextetChar (b1 % 4 * 16), '=', '=']
  | [b1, b2] =>
      [sextetChar (b1 / 4), sextetChar (b1 % 4 * 16 + b2 / 16),
        sextetChar (b2 % 16 * 4), '=']
  | b1 :: b2 :: b3 :: rest =>
      sextetChar (b1 / 4) :: sextetChar (b1 % 4 * 16 + b2 / 16) ::
        sextetChar (b2 % 16 * 4 + b3 / 64) :: sextetChar (b3 % 64) ::
        base64EncodeBytes rest

/-- base64 decoding (`atob`), the inverse reading of
`base64EncodeBytes`. -/
def base64DecodeChars : List Char → Option (List Nat)
  | [] => some []
  | c1 :: c2 :: c3 :: c4 :: rest =>
    match charSextet c1, charSextet c2 with
    | some s1, some s2 =>
      if c3 = '=' then
        if c4 = '=' ∧ rest = [] ∧ s2 % 16 = 0 then some [s1 * 4 + s2 / 16]
        else none
      else
        match charSextet c3 with
        | some s3 =>
          if c4 = '=' then
            if rest = [] ∧ s3 % 4 = 0 then
              some [s1 * 4 + s2 / 16, s2 % 16 * 16 + s3 / 4]
            else none
          else
            match charSextet c4 with
            | some s4 =>
              (base64DecodeChars rest).map
                (fun bs =>
                  (s1 * 4 + s2 / 16) :: (s2 % 16 * 16 + s3 / 4) ::
                    (s3 % 4 * 64 + s4) :: bs)
            | none => none
        | none => none
    | _, _ => none
  | _ => none

/-- The data-URI prefix of the `<img>` source (src/index.ts line 245). -/
def svgDataUriPrefix : List Char := "data:image/svg+xml;base64,".data

/-- The `src` attribute value set on the `<img>` element (src/index.ts
lines 242-246): the vector-image data-URI prefix followed by the base64
encoding of the UTF-8 bytes of the serialized SVG string. -/
def svgImageSrc (svgData : List Char) : List Char :=
  svgDataUriPrefix ++ base64EncodeBytes (utf8Encode svgData)

/-! # Theorems -/

/-! ## Claims C1, C2, C3 — cleanup and error propagation of the
orchestrator

The source removes the injector container explicitly on the render-reject
path (line 107), the missing-SVG path (line 114) and the success path
(line 123), but a synchronous throw from `copyToCanvas` (line 238,
"Could not get canvas context") reaches the outer catch without any
removal, a failed image decode leaves `copyToCanvas`'s promise pending
forever (only `onload` is installed, lines 247-255), and the promise of
the un-awaited `toOutput` call (line 121) is returned directly (line 125),
so its rejection bypasses the catch block and the `throwErrors` switch. -/

/-- C1: the claim says the container is removed exactly once before the
promise settles on every path, including rasterization failure.  On the
rasterization-failure path (`getContext("2d")` returns null) the promise
settles — it rejects with the canvas-context error — yet the container,
created once, is never removed: the cleanup count is 0, not 1. -/
theorem claim_C1_raster_failure_skips_cleanup :
    renderSvgAsImageRun
        { rendererRegistered := true, rootFound := true, renderResolves := true
          svgFound := true, canvasCtxOk := false, decodeOk := true
          encodeOk := true } defaultOpts =
      { result := .rejected .noCanvasContext, containerAdds := 1
        containerRemoves := 0 } := by
  decide

/-- C2: the claim says a decode failure makes the pipeline's promise
reject with a decode error.  In the source, `copyToCanvas` installs only
an `onload` handler on the `<img>` (no `onerror`), so when the payload
fails to decode the promise it returns — and hence the pipeline's
promise — never settles at all: the run ends `pending`, neither resolved
nor rejected (and the container is never removed either). -/
theorem claim_C2_decode_failure_never_settles :
    renderSvgAsImageRun
        { rendererRegistered := true, rootFound := true, renderResolves := true
          svgFound := true, canvasCtxOk := true, decodeOk := false
          encodeOk := true } defaultOpts =
      { result := .pending, containerAdds := 1, containerRemoves := 0 } := by
  decide

/-- C3: the claim says that with `throwErrors = false` every failure
resolves to the empty string.  The encoding failure does not: `toOutput`
is called without `await` (line 121) and its promise is returned directly
(line 125), so its rejection ("Could not convert canvas to blob") is
adopted by the returned promise after the `try` block has exited,
bypassing the catch block — the run below has `throwErrors = false` and
blob output, the encode yields null, and the promise rejects instead of
resolving to the empty string. -/
theorem claim_C3_encode_failure_bypasses_suppression :
    renderSvgAsImageRun
        { rendererRegistered := true, rootFound := true, renderResolves := true
          svgFound := true, canvasCtxOk := true, decodeOk := true
          encodeOk := false }
        { defaultOpts with output := "blob", throwErrors := false } =
      { result := .rejected .encodeFailed, containerAdds := 1
        containerRemoves := 1 } := by
  decide

/-! ## Claim C7 — validation precedes document mutation -/

/-- C7: whenever any of the four configuration checks fails — renderer
not registered, injector root not found, unknown format, unknown output —
`renderSvgAsImage` performs no document mutation at all (the temporary
container is neither created nor removed), and with the default
`throwErrors = true` the promise rejects with the corresponding
configuration error. -/
theorem claim_C7_validation_before_mutation (env : Env) (o : RenderOpts)
    (h : ¬ validConfig env o) :
    (renderSvgAsImageRun env o).containerAdds = 0 ∧
    (renderSvgAsImageRun env o).containerRemoves = 0 ∧
    (o.throwErrors = true →
      ∃ e, (e = PipeErr.notRegistered ∨ e = PipeErr.rootNotFound ∨
              e = PipeErr.invalidFormat ∨ e = PipeErr.invalidOutput) ∧
        (renderSvgAsImageRun env o).result = .rejected e) := by
  unfold validConfig at h
  unfold renderSvgAsImageRun catchBlock
  by_cases h1 : env.rendererRegistered = true
  · by_cases h2 : env.rootFound = true
    · by_cases h3 : o.format ∈ imageFormatValues
      · by_cases h4 : o.output ∈ imageOutputValues
        · exact absurd ⟨h1, h2, List.elem_iff.mpr h3, List.elem_iff.mpr h4⟩ h
        · rw [if_neg (by simp [h1]), if_neg (by simp [h2]),
            if_neg (by simp [h3]), if_pos (by simp [h4])]
          exact ⟨rfl, rfl, fun ht => ⟨.invalidOutput, by simp, by simp [ht]⟩⟩
      · rw [if_neg (by simp [h1]), if_neg (by simp [h2]),
          if_pos (by simp [h3])]
        exact ⟨rfl, rfl, fun ht => ⟨.invalidFormat, by simp, by simp [ht]⟩⟩
    · rw [if_neg (by simp [h1]), if_pos (by simp [h2])]
      exact ⟨rfl, rfl, fun ht => ⟨.rootNotFound, by simp, by simp [ht]⟩⟩
  · rw [if_pos (by simp [h1])]
    exact ⟨rfl, rfl, fun ht => ⟨.notRegistered, by simp, by simp [ht]⟩⟩

/-- Witness for C7 at a concrete invalid configuration (renderer never
registered). -/
theorem claim_C7_validation_before_mutation_witness :
    ¬ validConfig
        { rendererRegistered := false, rootFound := true
          renderResolves := true, svgFound := true, canvasCtxOk := true
          decodeOk := true, encodeOk := true } defaultOpts ∧
    (renderSvgAsImageRun
        { rendererRegistered := false, rootFound := true
          renderResolves := true, svgFound := true, canvasCtxOk := true
          decodeOk := true, encodeOk := true } defaultOpts).containerAdds =
      0 := by
  refine ⟨by decide, ?_⟩
  exact (claim_C7_validation_before_mutation _ _ (by decide)).1

/-! ## Claim C9 — per-run container identification and isolated removal -/

/-- Helper: `find?` skips a prefix containing no match. -/
theorem find_append_of_none {α : Type} (p : α → Bool) (l1 l2 : List α)
    (h : ∀ x ∈ l1, ¬ p x) : (l1 ++ l2).find? p = l2.find? p := by
  induction l1 with
  | nil => rfl
  | cons a as ih =>
    have ha : p a = false := by simpa using h a (List.mem_cons_self a as)
    simp only [List.cons_append, List.find?, ha]
    exact ih (fun x hx => h x (List.mem_cons_of_mem a hx))

/-- C9: `getInjectorContainer` appends the run's container tagged with the
run's identifier in the marker attribute; `removeInjectorContainer`
removes exactly the child carrying that identifier, leaving every other
child of the injector root (in particular other runs' containers) in
place and in order; and when no child carries the identifier it leaves the
children unchanged and returns normally (the source only logs in that
case). -/
theorem claim_C9_container_isolation (root : Root) (renderId : String) :
    (getInjectorContainer root renderId).1.children =
      root.children ++ [{ marker := some renderId, payload := 0 }] ∧
    (∀ pre c post, root.children = pre ++ c :: post →
      c.marker = some renderId →
      (∀ x ∈ pre, x.marker ≠ some renderId) →
      (removeInjectorContainer root renderId).children = pre ++ post) ∧
    ((∀ x ∈ root.children, x.marker ≠ some renderId) →
      removeInjectorContainer root renderId = root) := by
  refine ⟨rfl, ?_, ?_⟩
  · intro pre c post hch hc hpre
    have hfind : queryContainer root renderId = some c := by
      unfold queryContainer
      rw [hch, find_append_of_none _ pre _ (by
        intro x hx
        simpa using hpre x hx)]
      simp [List.find?, hc]
    unfold removeInjectorContainer
    rw [hfind]
    unfold removeChild
    show (root.children.eraseP fun x => x = c) = pre ++ post
    rw [hch, List.eraseP_append_right _ (by
      intro b hb
      simp only [decide_eq_true_eq]
      intro hbc
      exact hpre b hb (hbc ▸ hc)),
      List.eraseP_cons_of_pos (p := fun x => x = c) (by simp)]
  · intro hnone
    have hfind : queryContainer root renderId = none := by
      unfold queryContainer
      rw [List.find?_eq_none]
      intro x hx
      simpa using hnone x hx
    unfold removeInjectorContainer
    rw [hfind]

/-- Witness for C9 at a concrete root holding another run's container and
an unmarked child: the tagged container of run "a" is removed, the rest
survive; removal for an absent id "c" changes nothing. -/
theorem claim_C9_container_isolation_witness :
    (removeInjectorContainer
        { children := [{ marker := none, payload := 7 },
                        { marker := some "a", payload := 0 },
                        { marker := some "b", payload := 0 }] } "a").children =
      [{ marker := none, payload := 7 }, { marker := some "b", payload := 0 }] := by
  exact (claim_C9_container_isolation
      { children := [{ marker := none, payload := 7 },
                      { marker := some "a", payload := 0 },
                      { marker := some "b", payload := 0 }] } "a").2.1
    [{ marker := none, payload := 7 }] { marker := some "a", payload := 0 }
    [{ marker := some "b", payload := 0 }] rfl rfl (by decide)

/-! ## Claim C4 — pixel-surface dimensions -/

/-- Helper: the WebIDL unsigned-long coercion of a nonnegative in-range
number is its floor. -/
theorem jsToUint32_eq_floor (q : ℚ) (h0 : 0 ≤ q) (hB : q < 2 ^ 32) :
    jsToUint32 q = (⌊q⌋).toNat := by
  unfold jsToUint32 jsTrunc
  rw [if_pos h0, Int.emod_eq_of_lt (Int.floor_nonneg.mpr h0) (by
    rw [Int.floor_lt]
    exact_mod_cast hB)]

/-- C4: the claim says the pixel dimensions are
`ceil(sourceWidth * scale) × ceil(sourceHeight * scale)`.  The source
assigns `canvas.width = svgSize.width * scale` with no rounding, and the
`unsigned long` attribute coercion truncates: at a 3×1 bounding box and
scale 3/2 the produced pixel width is 4, while the claimed ceiling of
3 * 3/2 = 4.5 is 5. -/
theorem claim_C4_ceil_counterexample :
    (copyToCanvasSurface 3 1 (3/2)).width = 4 ∧
    (⌈(3 : ℚ) * (3/2)⌉).toNat = 5 ∧
    (copyToCanvasSurface 3 1 (3/2)).width ≠ (⌈(3 : ℚ) * (3/2)⌉).toNat := by
  have hceil : (⌈(3 : ℚ) * (3/2)⌉ : ℤ) = 5 := by
    rw [show (3 : ℚ) * (3/2) = 9/2 by norm_num, Int.ceil_eq_iff] <;> norm_num
  have hfl : (⌊(3 : ℚ) * (3/2)⌋ : ℤ) = 4 := by
    rw [show (3 : ℚ) * (3/2) = 9/2 by norm_num, Int.floor_eq_iff] <;> norm_num
  have hw : (copyToCanvasSurface 3 1 (3/2)).width = 4 := by
    show jsToUint32 ((3 : ℚ) * (3/2)) = 4
    rw [jsToUint32_eq_floor _ (by norm_num) (by norm_num), hfl]
    rfl
  refine ⟨hw, by rw [hceil]; rfl, ?_⟩
  rw [hw, hceil]
  decide

/-- C4 amended: for a nonnegative source bounding box and positive scale
(with the products in `unsigned long` range), the pixel dimensions of the
surface are the **truncations** `floor(sourceWidth * scale)` ×
`floor(sourceHeight * scale)` — each within one pixel below the exact
product — and the logical (CSS style) dimensions are the unscaled
`sourceWidth` × `sourceHeight`. -/
theorem claim_C4_amended_truncated_dims (w h s : ℚ)
    (hw : 0 ≤ w) (hh : 0 ≤ h) (hs : 0 < s)
    (hwB : w * s < 2 ^ 32) (hhB : h * s < 2 ^ 32) :
    (copyToCanvasSurface w h s).width = (⌊w * s⌋).toNat ∧
    (copyToCanvasSurface w h s).height = (⌊h * s⌋).toNat ∧
    (copyToCanvasSurface w h s).styleWidth = w ∧
    (copyToCanvasSurface w h s).styleHeight = h ∧
    w * s - 1 < ((copyToCanvasSurface w h s).width : ℚ) ∧
    ((copyToCanvasSurface w h s).width : ℚ) ≤ w * s ∧
    h * s - 1 < ((copyToCanvasSurface w h s).height : ℚ) ∧
    ((copyToCanvasSurface w h s).height : ℚ) ≤ h * s := by
  have hws : 0 ≤ w * s := mul_nonneg hw hs.le
  have hhs : 0 ≤ h * s := mul_nonneg hh hs.le
  have h1 : (copyToCanvasSurface w h s).width = (⌊w * s⌋).toNat :=
    jsToUint32_eq_floor _ hws hwB
  have h2 : (copyToCanvasSurface w h s).height = (⌊h * s⌋).toNat :=
    jsToUint32_eq_floor _ hhs hhB
  have hcastw : (((⌊w * s⌋).toNat : ℚ)) = ((⌊w * s⌋ : ℤ) : ℚ) := by
    exact_mod_cast congrArg (fun z : ℤ => (z : ℚ))
      (Int.toNat_of_nonneg (Int.floor_nonneg.mpr hws))
  have hcasth : (((⌊h * s⌋).toNat : ℚ)) = ((⌊h * s⌋ : ℤ) : ℚ) := by
    exact_mod_cast congrArg (fun z : ℤ => (z : ℚ))
      (Int.toNat_of_nonneg (Int.floor_nonneg.mpr hhs))
  refine ⟨h1, h2, rfl, rfl, ?_, ?_, ?_, ?_⟩
  · rw [h1, hcastw]; exact Int.sub_one_lt_floor (w * s)
  · rw [h1, hcastw]; exact Int.floor_le (w * s)
  · rw [h2, hcasth]; exact Int.sub_one_lt_floor (h * s)
  · rw [h2, hcasth]; exact Int.floor_le (h * s)

/-- Witness for the amended C4 at the 3×1 box with scale 3/2. -/
theorem claim_C4_amended_truncated_dims_witness :
    (copyToCanvasSurface 3 1 (3/2)).styleWidth = 3 ∧
    (copyToCanvasSurface 3 1 (3/2)).width = (⌊(3 : ℚ) * (3/2)⌋).toNat := by
  have h := claim_C4_amended_truncated_dims 3 1 (3/2) (by norm_num)
    (by norm_num) (by norm_num) (by norm_num) (by norm_num)
  exact ⟨h.2.2.1, h.1⟩

/-! ## Claim C5 — style inlining skips visibility, copies the rest -/

/-- Helper: updating the entry for key `k` does not change the value read
at another key. -/
theorem lookupStyle_map_update_ne (st : List (String × String))
    (k v k' : String) (h : k ≠ k') :
    lookupStyle (st.map fun p => if p.1 = k then (k, v) else p) k' =
      lookupStyle st k' := by
  induction st with
  | nil => rfl
  | cons p ps ih =>
    by_cases hp : p.1 = k
    · simp only [List.map_cons, if_pos hp, lookupStyle]
      rw [if_neg h, if_neg (hp ▸ h)]
      exact ih
    · simp only [List.map_cons, if_neg hp, lookupStyle]
      split
      · rfl
      · exact ih

/-- Helper: appending an entry for key `k` does not change the value read
at another key. -/
theorem lookupStyle_append_single_ne (st : List (String × String))
    (k v k' : String) (h : k ≠ k') :
    lookupStyle (st ++ [(k, v)]) k' = lookupStyle st k' := by
  induction st with
  | nil => simp [lookupStyle, if_neg h]
  | cons p ps ih =>
    simp only [List.cons_append, lookupStyle]
    split
    · rfl
    · exact ih

/-- Helper: assigning key `k` does not change the value read at another
key. -/
theorem lookupStyle_setStyleProp_ne (st : List (String × String))
    (k v k' : String) (h : k ≠ k') :
    lookupStyle (setStyleProp st k v) k' = lookupStyle st k' := by
  unfold setStyleProp
  split
  · exact lookupStyle_map_update_ne st k v k' h
  · exact lookupStyle_append_single_ne st k v k' h

/-- Helper: updating the present key `k` makes the value read at `k` the
assigned one. -/
theorem lookupStyle_map_update_eq (st : List (String × String))
    (k v : String) (h : (st.any fun p => p.1 = k) = true) :
    lookupStyle (st.map fun p => if p.1 = k then (k, v) else p) k =
      some v := by
  induction st with
  | nil => simp at h
  | cons p ps ih =>
    by_cases hp : p.1 = k
    · simp [List.map_cons, if_pos hp, lookupStyle]
    · simp only [List.map_cons, if_neg hp, lookupStyle, if_neg hp]
      exact ih (by simpa [hp] using h)

/-- Helper: appending an entry for the absent key `k` makes the value
read at `k` the appended one. -/
theorem lookupStyle_append_single_eq (st : List (String × String))
    (k v : String) (h : (st.any fun p => p.1 = k) = false) :
    lookupStyle (st ++ [(k, v)]) k = some v := by
  induction st with
  | nil => simp [lookupStyle]
  | cons p ps ih =>
    have hp : p.1 ≠ k := by
      intro hk
      simp [List.any_cons, hk] at h
    simp only [List.cons_append, lookupStyle, if_neg hp]
    exact ih (by simpa [hp] using h)

/-- Helper: assigning key `k` makes the value read at `k` the assigned
one. -/
theorem lookupStyle_setStyleProp_eq (st : List (String × String))
    (k v : String) : lookupStyle (setStyleProp st k v) k = some v := by
  unfold setStyleProp
  by_cases h : (st.any fun p => p.1 = k) = true
  · rw [if_pos h]
    exact lookupStyle_map_update_eq st k v h
  · have hf : (st.any fun p => p.1 = k) = false := by
      cases hb : (st.any fun p => p.1 = k) with
      | false => rfl
      | true => exact absurd hb h
    rw [if_neg h]
    exact lookupStyle_append_single_eq st k v hf

/-- Helper: the copying loop never touches the `visibility` property of
the target declaration. -/
theorem writeStyles_visibility (cm st : List (String × String)) :
    lookupStyle (writeStyles cm st) "visibility" =
      lookupStyle st "visibility" := by
  induction cm generalizing st with
  | nil => rfl
  | cons p ps ih =>
    unfold writeStyles
    simp only [List.foldl_cons]
    by_cases hp : p.1 = "visibility"
    · rw [if_pos hp]
      exact ih st
    · rw [if_neg hp]
      rw [show List.foldl _ (setStyleProp st p.1 p.2) ps =
          writeStyles ps (setStyleProp st p.1 p.2) from rfl]
      rw [ih (setStyleProp st p.1 p.2)]
      exact lookupStyle_setStyleProp_ne st p.1 p.2 "visibility" hp

/-- Helper: the copying loop leaves keys absent from the computed style
unchanged. -/
theorem writeStyles_absent (cm st : List (String × String)) (k : String)
    (h : ∀ p ∈ cm, p.1 ≠ k) :
    lookupStyle (writeStyles cm st) k = lookupStyle st k := by
  induction cm generalizing st with
  | nil => rfl
  | cons p ps ih =>
    unfold writeStyles
    simp only [List.foldl_cons]
    have hrest : ∀ q ∈ ps, q.1 ≠ k :=
      fun q hq => h q (List.mem_cons_of_mem p hq)
    by_cases hp : p.1 = "visibility"
    · rw [if_pos hp]
      exact ih st hrest
    · rw [if_neg hp]
      rw [show List.foldl _ (setStyleProp st p.1 p.2) ps =
          writeStyles ps (setStyleProp st p.1 p.2) from rfl]
      rw [ih (setStyleProp st p.1 p.2) hrest]
      exact lookupStyle_setStyleProp_ne st p.1 p.2 k
        (h p (List.mem_cons_self p ps))

/-- Helper: with pairwise-distinct computed keys, every non-`visibility`
computed property ends up on the target declaration with its computed
value. -/
theorem writeStyles_copies (cm st : List (String × String)) (k v : String)
    (hnd : keysNodup cm = true) (hmem : (k, v) ∈ cm)
    (hvis : k ≠ "visibility") :
    lookupStyle (writeStyles cm st) k = some v := by
  induction cm generalizing st with
  | nil => simp at hmem
  | cons p ps ih =>
    unfold keysNodup at hnd
    rw [Bool.and_eq_true] at hnd
    obtain ⟨hhead, hrest⟩ := hnd
    unfold writeStyles
    simp only [List.foldl_cons]
    rcases List.mem_cons.mp hmem with heq | hmem'
    · subst heq
      rw [if_neg hvis]
      rw [show List.foldl _ (setStyleProp st k v) ps =
          writeStyles ps (setStyleProp st k v) from rfl]
      rw [writeStyles_absent ps (setStyleProp st k v) k (by
        intro q hq hqk
        rw [Bool.not_eq_true'] at hhead
        have : ps.any (fun q' => q'.1 = (k, v).1) = true :=
          List.any_eq_true.mpr ⟨q, hq, by simpa using hqk⟩
        simp [this] at hhead)]
      exact lookupStyle_setStyleProp_eq st k v
    · by_cases hp : p.1 = "visibility"
      · rw [if_pos hp]
        exact ih st hrest hmem'
      · rw [if_neg hp]
        exact ih (setStyleProp st p.1 p.2) hrest hmem'

/-- Helper: indexing into the pairwise-inlined child list of congruent
trees yields the inlining of the children at that index. -/
theorem inlineStylesList_get (ss ts : List DomNode) (i : Nat) (m : DomNode)
    (hc : congruentList ss ts = true)
    (hm : (inlineStylesList ss ts)[i]? = some m) :
    ∃ sc tc, ss[i]? = some sc ∧ ts[i]? = some tc ∧ m = inlineStyles sc tc ∧
      congruent sc tc = true := by
  induction ss generalizing ts i with
  | nil =>
    cases ts with
    | nil => simp [inlineStylesList] at hm
    | cons t ts' => simp [congruentList] at hc
  | cons s ss' ih =>
    cases ts with
    | nil => simp [congruentList] at hc
    | cons t ts' =>
      unfold congruentList at hc
      rw [Bool.and_eq_true] at hc
      cases i with
      | zero =>
        refine ⟨s, t, by simp, by simp, ?_, hc.1⟩
        simpa [inlineStylesList] using hm.symm
      | succ j =>
        simp only [inlineStylesList, List.getElem?_cons_succ] at hm ⊢
        exact ih ts' j hc.2 hm

/-- Helper: per-node computed-key distinctness descends to any indexed
child. -/
theorem nodupComputedList_get (l : List DomNode) (i : Nat) (c : DomNode)
    (hnd : nodupComputedList l = true) (hc : l[i]? = some c) :
    nodupComputedTree c = true := by
  induction l generalizing i with
  | nil => simp at hc
  | cons a as ih =>
    unfold nodupComputedList at hnd
    rw [Bool.and_eq_true] at hnd
    cases i with
    | zero =>
      simp only [List.getElem?_cons_zero, Option.some_inj] at hc
      exact hc ▸ hnd.1
    | succ j =>
      simp only [List.getElem?_cons_succ] at hc
      exact ih j hnd.2 hc

/-- C5: for structurally congruent source/target trees (with each node's
computed style enumerating every property once, as a real
`CSSStyleDeclaration` does), `inlineStyles` recurses pairwise in document
order, and at every tree position the produced node reads the
`visibility` style exactly as the original target did — the property is
never written — while every other computed property of the corresponding
source node is copied onto it with its computed value. -/
theorem claim_C5_inline_styles_skip_visibility (s t : DomNode)
    (p : List Nat) (n : DomNode)
    (hc : congruent s t = true) (hnd : nodupComputedTree s = true)
    (hres : getPath (inlineStyles s t) p = some n) :
    ∃ sn tn, getPath s p = some sn ∧ getPath t p = some tn ∧
      lookupStyle n.style "visibility" = lookupStyle tn.style "visibility" ∧
      (∀ k v, (k, v) ∈ sn.computed → k ≠ "visibility" →
        lookupStyle n.style k = some v) := by
  induction p generalizing s t with
  | nil =>
    refine ⟨s, t, rfl, rfl, ?_, ?_⟩
    · cases s with
      | mk stag sa scm sst sch =>
        cases t with
        | mk ttag ta tcm tst tch =>
          have hn : n = inlineStyles (.mk stag sa scm sst sch)
              (.mk ttag ta tcm tst tch) := by
            simpa [getPath] using hres.symm
          rw [hn]
          exact writeStyles_visibility scm tst
    · intro k v hkv hk
      cases s with
      | mk stag sa scm sst sch =>
        cases t with
        | mk ttag ta tcm tst tch =>
          have hn : n = inlineStyles (.mk stag sa scm sst sch)
              (.mk ttag ta tcm tst tch) := by
            simpa [getPath] using hres.symm
          rw [hn]
          unfold nodupComputedTree at hnd
          rw [Bool.and_eq_true] at hnd
          exact writeStyles_copies scm tst k v hnd.1 hkv hk
  | cons i p' ih =>
    cases s with
    | mk stag sa scm sst sch =>
      cases t with
      | mk ttag ta tcm tst tch =>
        unfold getPath at hres
        simp only [inlineStyles, DomNode.children] at hres
        match hm : (inlineStylesList sch tch)[i]? with
        | none => rw [hm] at hres; exact absurd hres (by simp)
        | some m =>
          rw [hm] at hres
          have hcl : congruentList sch tch = true := hc
          obtain ⟨sc, tc, hsc, htc, hmeq, hcc⟩ :=
            inlineStylesList_get sch tch i m hcl hm
          unfold nodupComputedTree at hnd
          rw [Bool.and_eq_true] at hnd
          have hndc : nodupComputedTree sc = true :=
            nodupComputedList_get sch i sc hnd.2 hsc
          obtain ⟨sn, tn, hsn, htn, hvis, hcopy⟩ :=
            ih sc tc hcc hndc (hmeq ▸ hres)
          refine ⟨sn, tn, ?_, ?_, hvis, hcopy⟩
          · unfold getPath
            simp only [DomNode.children]
            rw [hsc]
            exact hsn
          · unfold getPath
            simp only [DomNode.children]
            rw [htc]
            exact htn

/-- Witness for C5: a two-node source whose computed style holds `fill`
and `visibility`, inlined onto a congruent bare target — the result reads
`fill` as computed and reads no `visibility` at all. -/
theorem claim_C5_inline_styles_skip_visibility_witness :
    lookupStyle
        (inlineStyles
          (.mk "svg" [] [("fill", "red"), ("visibility", "hidden")] []
            [.mk "circle" [] [("stroke", "blue")] [] []])
          (.mk "svg" [] [] [] [.mk "circle" [] [] [] []])).style
        "visibility" = none ∧
    lookupStyle
        (inlineStyles
          (.mk "svg" [] [("fill", "red"), ("visibility", "hidden")] []
            [.mk "circle" [] [("stroke", "blue")] [] []])
          (.mk "svg" [] [] [] [.mk "circle" [] [] [] []])).style
        "fill" = some "red" := by
  obtain ⟨sn, tn, hsn, htn, hvis, hcopy⟩ :=
    claim_C5_inline_styles_skip_visibility
      (.mk "svg" [] [("fill", "red"), ("visibility", "hidden")] []
        [.mk "circle" [] [("stroke", "blue")] [] []])
      (.mk "svg" [] [] [] [.mk "circle" [] [] [] []])
      [] _ (by decide) (by decide) rfl
  have hsn' : sn = .mk "svg" [] [("fill", "red"), ("visibility", "hidden")] []
      [.mk "circle" [] [("stroke", "blue")] [] []] := by
    simpa [getPath] using hsn.symm
  have htn' : tn = .mk "svg" [] [] [] [.mk "circle" [] [] [] []] := by
    simpa [getPath] using htn.symm
  constructor
  · rw [hvis, htn']
    rfl
  · exact hcopy "fill" "red" (by rw [hsn']; simp [DomNode.computed])
      (by decide)

/-! ## Claim C6 — selector removal -/

/-- Structural induction over `DomNode` with the hypothesis available for
every child. -/
theorem DomNode.inductionOn {motive : DomNode → Prop}
    (ind : ∀ t a cm st ch, (∀ c ∈ ch, motive c) →
      motive (.mk t a cm st ch)) :
    ∀ n, motive n
  | .mk t a cm st ch =>
      ind t a cm st ch (fun c hc => DomNode.inductionOn ind c)
termination_by n => sizeOf n
decreasing_by
  have := List.sizeOf_lt_of_mem hc
  simp only [DomNode.mk.sizeOf_spec]
  omega

/-- Helper: permutation-invariance of `List.any`. -/
theorem any_perm {α : Type} (l1 l2 : List α) (p : α → Bool)
    (h : l1.Perm l2) : l1.any p = l2.any p := by
  cases hb : l2.any p with
  | true =>
    rw [List.any_eq_true] at hb ⊢
    obtain ⟨x, hx, hpx⟩ := hb
    exact ⟨x, h.mem_iff.mpr hx, hpx⟩
  | false =>
    rw [List.any_eq_false] at hb ⊢
    intro x hx
    exact hb x (h.mem_iff.mp hx)

/-- Helper: a removal pass depends only on the selector's matching
function, pointwise (list version). -/
theorem removePassList_congr (p q : Selector) (hpq : ∀ n, p n = q n)
    (ch : List DomNode)
    (ihm : ∀ c ∈ ch, removePass p c = removePass q c) :
    removePassList p ch = removePassList q ch := by
  induction ch with
  | nil => rfl
  | cons c cs ih =>
    unfold removePassList
    rw [hpq c]
    have ihcs := ih (fun x hx => ihm x (List.mem_cons_of_mem c hx))
    split
    · exact ihcs
    · rw [ihm c (List.mem_cons_self c cs), ihcs]

/-- Helper: a removal pass depends only on the selector's matching
function, pointwise. -/
theorem removePass_congr (p q : Selector) (hpq : ∀ n, p n = q n) :
    ∀ t, removePass p t = removePass q t := by
  apply DomNode.inductionOn
  intro tg a cm st ch ihm
  unfold removePass
  rw [removePassList_congr p q hpq ch ihm]

/-- Helper: a pass with a never-matching selector leaves the tree
unchanged (list version). -/
theorem removePassList_false (p : Selector) (hp : ∀ n, p n = false)
    (ch : List DomNode) (ihm : ∀ c ∈ ch, removePass p c = c) :
    removePassList p ch = ch := by
  induction ch with
  | nil => rfl
  | cons c cs ih =>
    unfold removePassList
    rw [hp c, if_neg (by simp)]
    rw [ihm c (List.mem_cons_self c cs),
      ih (fun x hx => ihm x (List.mem_cons_of_mem c hx))]

/-- Helper: a pass with a never-matching selector leaves the tree
unchanged. -/
theorem removePass_false (p : Selector) (hp : ∀ n, p n = false) :
    ∀ t, removePass p t = t := by
  apply DomNode.inductionOn
  intro tg a cm st ch ihm
  unfold removePass
  rw [removePassList_false p hp ch ihm]

/-- Helper: an intrinsic selector gives the same verdict on a node before
and after a removal pass prunes its subtree. -/
theorem intrinsic_removePass (q : Selector) (hq : Intrinsic q)
    (p : Selector) (c : DomNode) : q (removePass p c) = q c := by
  cases c with
  | mk tg a cm st ch =>
    unfold removePass
    exact hq tg a cm st (removePassList p ch) ch

/-- Helper: two successive passes, the second with an intrinsic selector,
equal one pass with the pointwise disjunction (list version). -/
theorem removePassList_comp (p q : Selector) (hq : Intrinsic q)
    (ch : List DomNode)
    (ihm : ∀ c ∈ ch, removePass q (removePass p c) =
      removePass (fun n => p n || q n) c) :
    removePassList q (removePassList p ch) =
      removePassList (fun n => p n || q n) ch := by
  induction ch with
  | nil => rfl
  | cons c cs ih =>
    have ihcs := ih (fun x hx => ihm x (List.mem_cons_of_mem c hx))
    by_cases hp : p c = true
    · have hinner : removePassList p (c :: cs) = removePassList p cs := by
        rw [removePassList, if_pos (by simp [hp])]
      have hrhs : removePassList (fun n => p n || q n) (c :: cs) =
          removePassList (fun n => p n || q n) cs := by
        rw [removePassList, if_pos (by simp [hp])]
      rw [hinner, hrhs]
      exact ihcs
    · have hp' : p c = false := by
        cases hb : p c with
        | false => rfl
        | true => exact absurd hb hp
      by_cases hqc : q c = true
      · conv_lhs => rw [removePassList]
        rw [if_neg (by simp [hp'])]
        conv_lhs => rw [removePassList]
        rw [if_pos (by simp [intrinsic_removePass q hq p c, hqc])]
        conv_rhs => rw [removePassList]
        rw [if_pos (by simp [hp', hqc])]
        exact ihcs
      · have hq' : q c = false := by
          cases hb : q c with
          | false => rfl
          | true => exact absurd hb hqc
        conv_lhs => rw [removePassList]
        rw [if_neg (by simp [hp'])]
        conv_lhs => rw [removePassList]
        rw [if_neg (by simp [intrinsic_removePass q hq p c, hq'])]
        conv_rhs => rw [removePassList]
        rw [if_neg (by simp [hp', hq'])]
        rw [ihm c (List.mem_cons_self c cs), ihcs]

/-- Helper: two successive passes, the second with an intrinsic selector,
equal one pass with the pointwise disjunction. -/
theorem removePass_comp (p q : Selector) (hq : Intrinsic q) :
    ∀ t, removePass q (removePass p t) =
      removePass (fun n => p n || q n) t := by
  apply DomNode.inductionOn
  intro tg a cm st ch ihm
  conv_lhs => rw [removePass]
  unfold removePass
  rw [removePassList_comp p q hq ch ihm]

/-- Helper: the disjunction of intrinsic selectors is intrinsic. -/
theorem intrinsic_matchesAny (S : List Selector)
    (hS : ∀ sel ∈ S, Intrinsic sel) : Intrinsic (matchesAny S) := by
  intro tg a cm st ch ch'
  unfold matchesAny
  induction S with
  | nil => rfl
  | cons s S' ih =>
    simp only [List.any_cons]
    rw [hS s (List.mem_cons_self s S') tg a cm st ch ch',
      ih (fun x hx => hS x (List.mem_cons_of_mem s hx))]

/-- Helper: the sequential passes of the removal phase compute, for
intrinsic selectors, the single pass of the disjunction. -/
theorem removalPhase_eq_single_pass (S : List Selector) (t : DomNode)
    (hS : ∀ sel ∈ S, Intrinsic sel) :
    removalPhase S t = removePass (matchesAny S) t := by
  induction S generalizing t with
  | nil =>
    rw [show removalPhase [] t = t from rfl,
      removePass_false (matchesAny []) (fun n => rfl) t]
  | cons s S' ih =>
    have hS' : ∀ sel ∈ S', Intrinsic sel :=
      fun x hx => hS x (List.mem_cons_of_mem s hx)
    rw [show removalPhase (s :: S') t = removalPhase S' (removePass s t)
        from rfl,
      ih (removePass s t) hS',
      removePass_comp s (matchesAny S') (intrinsic_matchesAny S' hS') t]
    exact removePass_congr _ (matchesAny (s :: S'))
      (fun n => by simp [matchesAny]) t

/-- Helper: after a pass with an intrinsic selector, no descendant of the
result matches it (list version). -/
theorem removePassList_occurs (p : Selector) (hp : Intrinsic p)
    (ch : List DomNode)
    (ihm : ∀ c ∈ ch, ∀ n, occursIn n (removePass p c) → p n = false) :
    ∀ n, occursInList n (removePassList p ch) → p n = false := by
  induction ch with
  | nil => intro n h; exact absurd h (by simp [occursInList])
  | cons c cs ih =>
    intro n h
    have ihcs := ih (fun x hx => ihm x (List.mem_cons_of_mem c hx))
    by_cases hpc : p c = true
    · rw [removePassList, if_pos (by simp [hpc])] at h
      exact ihcs n h
    · have hp' : p c = false := by
        cases hb : p c with
        | false => rfl
        | true => exact absurd hb hpc
      rw [removePassList, if_neg (by simp [hp'])] at h
      rcases h with heq | hocc | hrest
      · rw [← heq, intrinsic_removePass p hp p c]
        exact hp'
      · exact ihm c (List.mem_cons_self c cs) n hocc
      · exact ihcs n hrest

/-- Helper: after a pass with an intrinsic selector, no descendant of the
result matches it. -/
theorem removePass_occurs (p : Selector) (hp : Intrinsic p) :
    ∀ t, ∀ n, occursIn n (removePass p t) → p n = false := by
  apply DomNode.inductionOn
  intro tg a cm st ch ihm n h
  rw [removePass] at h
  exact removePassList_occurs p hp ch ihm n h

/-- C6 amended: the claim as stated fails for context-sensitive selectors
(see the counterexample), but holds for *intrinsic* selectors — those
whose verdict depends only on the element itself (tag/attribute
selectors), not on its subtree or surroundings.  For a set `S` of
intrinsic selectors, the removal phase of `normaliseSvg` computes exactly
the one-pass recursive filter of the disjunction of `S` — so every
element not matching any selector and not inside a removed element
survives (with its surviving children, in order) — the result is
independent of the order in which the selectors are processed, and no
element remaining in the result matches any selector of `S`. -/
theorem claim_C6_amended_selector_removal (S : List Selector) (t : DomNode)
    (hS : ∀ sel ∈ S, Intrinsic sel) :
    removalPhase S t = removePass (matchesAny S) t ∧
    (∀ S', S.Perm S' → removalPhase S' t = removalPhase S t) ∧
    (∀ n, occursIn n (removalPhase S t) → ∀ sel ∈ S, sel n = false) := by
  refine ⟨removalPhase_eq_single_pass S t hS, ?_, ?_⟩
  · intro S' hperm
    have hS' : ∀ sel ∈ S', Intrinsic sel :=
      fun x hx => hS x (hperm.mem_iff.mpr hx)
    rw [removalPhase_eq_single_pass S t hS,
      removalPhase_eq_single_pass S' t hS']
    exact removePass_congr _ _
      (fun n => any_perm S' S (fun sel => sel n) hperm.symm) t
  · intro n hocc sel hsel
    rw [removalPhase_eq_single_pass S t hS] at hocc
    have hany := removePass_occurs (matchesAny S)
      (intrinsic_matchesAny S hS) t n hocc
    rw [matchesAny, List.any_eq_false] at hany
    have hne := hany sel hsel
    cases hb : sel n with
    | false => rfl
    | true => exact absurd hb hne

/-- Witness for the amended C6: one intrinsic tag selector on a small
tree; the sequential phase equals the one-pass filter. -/
theorem claim_C6_amended_selector_removal_witness :
    removalPhase [fun n => n.tag == "d"]
        (.mk "p" [] [] [] [.mk "c" [] [] [] [.mk "d" [] [] [] []]]) =
      removePass (matchesAny [fun n => n.tag == "d"])
        (.mk "p" [] [] [] [.mk "c" [] [] [] [.mk "d" [] [] [] []]]) :=
  (claim_C6_amended_selector_removal [fun n => n.tag == "d"]
    (.mk "p" [] [] [] [.mk "c" [] [] [] [.mk "d" [] [] [] []]])
    (fun sel hsel => by
      rw [List.mem_singleton] at hsel
      rw [hsel]
      intro tg a cm st ch ch'
      rfl)).1

/-- C6 counterexample: with the subtree-sensitive selector `:empty`
(matching elements with no children) in the set, the removal phase is
order-dependent and can leave an element that matches a selector of the
set.  On the tree `p > c > d` with selectors {tag `d`, `:empty`}:
processing tag-then-empty removes both `d` and the then-empty `c`,
processing empty-then-tag removes only `d` — and leaves `c`, which now
matches `:empty`, in the tree. -/
theorem claim_C6_counterexample :
    removalPhase [fun n => n.tag == "d", fun n => n.children.isEmpty]
        (.mk "p" [] [] [] [.mk "c" [] [] [] [.mk "d" [] [] [] []]]) ≠
      removalPhase [fun n => n.children.isEmpty, fun n => n.tag == "d"]
        (.mk "p" [] [] [] [.mk "c" [] [] [] [.mk "d" [] [] [] []]]) ∧
    occursIn (.mk "c" [] [] [] [])
      (removalPhase [fun n => n.children.isEmpty, fun n => n.tag == "d"]
        (.mk "p" [] [] [] [.mk "c" [] [] [] [.mk "d" [] [] [] []]])) ∧
    (fun (n : DomNode) => n.children.isEmpty) (.mk "c" [] [] [] []) =
      true := by
  have h1 : removalPhase [fun n => n.tag == "d", fun n => n.children.isEmpty]
      (.mk "p" [] [] [] [.mk "c" [] [] [] [.mk "d" [] [] [] []]]) =
      .mk "p" [] [] [] [] := rfl
  have h2 : removalPhase [fun n => n.children.isEmpty, fun n => n.tag == "d"]
      (.mk "p" [] [] [] [.mk "c" [] [] [] [.mk "d" [] [] [] []]]) =
      .mk "p" [] [] [] [.mk "c" [] [] [] []] := rfl
  refine ⟨?_, ?_, rfl⟩
  · rw [h1, h2]
    intro h
    simp at h
  · rw [h2]
    exact Or.inl rfl

/-! ## Claim C8 — the data-URI payload round-trips -/

set_option maxRecDepth 4000 in
/-- Helper: decoding a base64 digit recovers its sextet (finite check over
the alphabet). -/
theorem charSextet_sextetChar_fin :
    ∀ i : Fin 64, charSextet (sextetChar i) = some i := by decide

set_option maxRecDepth 4000 in
/-- Helper: no base64 digit is the padding character (finite check). -/
theorem sextetChar_ne_pad_fin : ∀ i : Fin 64, sextetChar i ≠ '=' := by decide

/-- Helper: decoding a base64 digit recovers its sextet. -/
theorem charSextet_sextetChar (i : Nat) (h : i < 64) :
    charSextet (sextetChar i) = some i :=
  charSextet_sextetChar_fin ⟨i, h⟩

/-- Helper: no base64 digit is the padding character. -/
theorem sextetChar_ne_pad (i : Nat) (h : i < 64) : sextetChar i ≠ '=' :=
  sextetChar_ne_pad_fin ⟨i, h⟩

/-- Helper: base64 decoding inverts base64 encoding on byte sequences. -/
theorem base64_roundtrip (bs : List Nat) (hb : ∀ b ∈ bs, b < 256) :
    base64DecodeChars (base64EncodeBytes bs) = some bs := by
  induction bs using base64EncodeBytes.induct with
  | case1 => rfl
  | case2 b1 =>
    have h1 : b1 < 256 := hb b1 (by simp)
    have hc1 := charSextet_sextetChar (b1 / 4) (by omega)
    have hc2 := charSextet_sextetChar (b1 % 4 * 16) (by omega)
    simp only [base64EncodeBytes, base64DecodeChars, hc1, hc2]
    rw [if_pos trivial, if_pos ⟨trivial, trivial, by omega⟩]
    have e1 : b1 / 4 * 4 + b1 % 4 * 16 / 16 = b1 := by omega
    rw [e1]
  | case3 b1 b2 =>
    have h1 : b1 < 256 := hb b1 (by simp)
    have h2 : b2 < 256 := hb b2 (by simp)
    have hc1 := charSextet_sextetChar (b1 / 4) (by omega)
    have hc2 := charSextet_sextetChar (b1 % 4 * 16 + b2 / 16) (by omega)
    have hc3 := charSextet_sextetChar (b2 % 16 * 4) (by omega)
    have hn3 := sextetChar_ne_pad (b2 % 16 * 4) (by omega)
    simp only [base64EncodeBytes, base64DecodeChars, hc1, hc2, hc3]
    rw [if_neg hn3, if_pos trivial, if_pos ⟨trivial, by omega⟩]
    have e1 : b1 / 4 * 4 + (b1 % 4 * 16 + b2 / 16) / 16 = b1 := by omega
    have e2 : (b1 % 4 * 16 + b2 / 16) % 16 * 16 + b2 % 16 * 4 / 4 = b2 := by
      omega
    rw [e1, e2]
  | case4 b1 b2 b3 rest ih =>
    have h1 : b1 < 256 := hb b1 (by simp)
    have h2 : b2 < 256 := hb b2 (by simp)
    have h3 : b3 < 256 := hb b3 (by simp)
    have hrest : ∀ b ∈ rest, b < 256 := fun b hbm => hb b (by simp [hbm])
    have hc1 := charSextet_sextetChar (b1 / 4) (by omega)
    have hc2 := charSextet_sextetChar (b1 % 4 * 16 + b2 / 16) (by omega)
    have hc3 := charSextet_sextetChar (b2 % 16 * 4 + b3 / 64) (by omega)
    have hc4 := charSextet_sextetChar (b3 % 64) (by omega)
    have hn3 := sextetChar_ne_pad (b2 % 16 * 4 + b3 / 64) (by omega)
    have hn4 := sextetChar_ne_pad (b3 % 64) (by omega)
    simp only [base64EncodeBytes, base64DecodeChars, hc1, hc2, hc3, hc4]
    rw [if_neg hn3, if_neg hn4, ih hrest]
    have e1 : b1 / 4 * 4 + (b1 % 4 * 16 + b2 / 16) / 16 = b1 := by omega
    have e2 : (b1 % 4 * 16 + b2 / 16) % 16 * 16 +
        (b2 % 16 * 4 + b3 / 64) / 4 = b2 := by omega
    have e3 : (b2 % 16 * 4 + b3 / 64) % 4 * 64 + b3 % 64 = b3 := by omega
    rw [e1, e2, e3]
    rfl

/-- Helper: the valid-scalar bounds of a character. -/
theorem char_valid_bounds (c : Char) :
    c.toNat < 0xD800 ∨ (0xE000 ≤ c.toNat ∧ c.toNat < 0x110000) := by
  have h := c.valid
  unfold UInt32.isValidChar at h
  unfold Nat.isValidChar at h
  rcases h with h | ⟨h1, h2⟩
  · left; exact h
  · right; exact ⟨h1, h2⟩

/-- Helper: every UTF-8 byte of a character is a byte. -/
theorem utf8EncodeChar_lt (c : Char) : ∀ b ∈ utf8EncodeChar c, b < 256 := by
  have hv : c.toNat < 0x110000 := by
    rcases char_valid_bounds c with h | ⟨_, h⟩ <;> omega
  intro b hb
  unfold utf8EncodeChar at hb
  by_cases h1 : c.toNat < 0x80
  · rw [if_pos h1] at hb
    simp at hb
    omega
  · rw [if_neg h1] at hb
    by_cases h2 : c.toNat < 0x800
    · rw [if_pos h2] at hb
      simp at hb
      rcases hb with rfl | rfl <;> omega
    · rw [if_neg h2] at hb
      by_cases h3 : c.toNat < 0x10000
      · rw [if_pos h3] at hb
        simp at hb
        rcases hb with rfl | rfl | rfl <;> omega
      · rw [if_neg h3] at hb
        simp at hb
        rcases hb with rfl | rfl | rfl | rfl <;> omega

/-- Helper: every UTF-8 byte of a string is a byte. -/
theorem utf8Encode_lt (s : List Char) : ∀ b ∈ utf8Encode s, b < 256 := by
  induction s with
  | nil => intro b hb; simp [utf8Encode] at hb
  | cons c cs ih =>
    intro b hb
    rw [utf8Encode] at hb
    rcases List.mem_append.mp hb with hc | hcs
    · exact utf8EncodeChar_lt c b hc
    · exact ih b hcs

set_option maxRecDepth 4000 in
/-- Helper: one continuation byte yields its payload. -/
theorem utf8Cont_one (b : Nat) (bs : List Nat) (h1 : 0x80 ≤ b)
    (h2 : b < 0xC0) : utf8Cont 1 (b :: bs) = some (b - 0x80, bs) := by
  show (if 0x80 ≤ b ∧ b < 0xC0 then
      (utf8Cont 0 bs).map (fun p => ((b - 0x80) * 64 ^ 0 + p.1, p.2))
    else none) = some (b - 0x80, bs)
  rw [if_pos ⟨h1, h2⟩]
  show some ((b - 0x80) * 64 ^ 0 + 0, bs) = some (b - 0x80, bs)
  rw [pow_zero, mul_one, Nat.add_zero]

set_option maxRecDepth 4000 in
/-- Helper: two continuation bytes yield their combined payload. -/
theorem utf8Cont_two (b2 b3 : Nat) (bs : List Nat) (h2a : 0x80 ≤ b2)
    (h2b : b2 < 0xC0) (h3a : 0x80 ≤ b3) (h3b : b3 < 0xC0) :
    utf8Cont 2 (b2 :: b3 :: bs) =
      some ((b2 - 0x80) * 64 + (b3 - 0x80), bs) := by
  show (if 0x80 ≤ b2 ∧ b2 < 0xC0 then
      (utf8Cont 1 (b3 :: bs)).map
        (fun p => ((b2 - 0x80) * 64 ^ 1 + p.1, p.2))
    else none) = some ((b2 - 0x80) * 64 + (b3 - 0x80), bs)
  rw [if_pos ⟨h2a, h2b⟩, utf8Cont_one b3 bs h3a h3b]
  show some ((b2 - 0x80) * 64 ^ 1 + (b3 - 0x80), bs) =
    some ((b2 - 0x80) * 64 + (b3 - 0x80), bs)
  rw [pow_one]

set_option maxRecDepth 4000 in
/-- Helper: three continuation bytes yield their combined payload. -/
theorem utf8Cont_three (b2 b3 b4 : Nat) (bs : List Nat) (h2a : 0x80 ≤ b2)
    (h2b : b2 < 0xC0) (h3a : 0x80 ≤ b3) (h3b : b3 < 0xC0)
    (h4a : 0x80 ≤ b4) (h4b : b4 < 0xC0) :
    utf8Cont 3 (b2 :: b3 :: b4 :: bs) =
      some ((b2 - 0x80) * 4096 + (b3 - 0x80) * 64 + (b4 - 0x80), bs) := by
  show (if 0x80 ≤ b2 ∧ b2 < 0xC0 then
      (utf8Cont 2 (b3 :: b4 :: bs)).map
        (fun p => ((b2 - 0x80) * 64 ^ 2 + p.1, p.2))
    else none) =
    some ((b2 - 0x80) * 4096 + (b3 - 0x80) * 64 + (b4 - 0x80), bs)
  rw [if_pos ⟨h2a, h2b⟩, utf8Cont_two b3 b4 bs h3a h3b h4a h4b]
  show some ((b2 - 0x80) * 64 ^ 2 + ((b3 - 0x80) * 64 + (b4 - 0x80)), bs) =
    some ((b2 - 0x80) * 4096 + (b3 - 0x80) * 64 + (b4 - 0x80), bs)
  have e : (b2 - 0x80) * 64 ^ 2 + ((b3 - 0x80) * 64 + (b4 - 0x80)) =
      (b2 - 0x80) * 4096 + (b3 - 0x80) * 64 + (b4 - 0x80) := by
    rw [show (64 : Nat) ^ 2 = 4096 from rfl]
    omega
  rw [e]

/-- Helper: parsing the UTF-8 bytes of one character followed by anything
yields exactly that character's scalar value and the rest. -/
theorem utf8ParseOne_encodeChar (c : Char) (bs : List Nat) :
    utf8ParseOne (utf8EncodeChar c ++ bs) = some (c.toNat, bs) := by
  have hv : c.toNat < 0x110000 := by
    rcases char_valid_bounds c with h | ⟨_, h⟩ <;> omega
  unfold utf8EncodeChar
  by_cases h1 : c.toNat < 0x80
  · rw [if_pos h1]
    simp only [List.cons_append, List.nil_append]
    rw [utf8ParseOne, if_pos h1]
  · rw [if_neg h1]
    by_cases h2 : c.toNat < 0x800
    · rw [if_pos h2]
      simp only [List.cons_append, List.nil_append]
      rw [utf8ParseOne, if_neg (by omega), if_neg (by omega),
        if_pos (by omega),
        utf8Cont_one (0x80 + c.toNat % 64) bs (by omega) (by omega)]
      simp only [Option.map_some', Option.some_inj]
      have e : (0xC0 + c.toNat / 64 - 0xC0) * 64 +
          (0x80 + c.toNat % 64 - 0x80) = c.toNat := by omega
      rw [e]
    · rw [if_neg h2]
      by_cases h3 : c.toNat < 0x10000
      · rw [if_pos h3]
        simp only [List.cons_append, List.nil_append]
        rw [utf8ParseOne, if_neg (by omega), if_neg (by omega),
          if_neg (by omega), if_pos (by omega),
          utf8Cont_two (0x80 + c.toNat / 64 % 64) (0x80 + c.toNat % 64) bs
            (by omega) (by omega) (by omega) (by omega)]
        simp only [Option.map_some', Option.some_inj]
        have e : (0xE0 + c.toNat / 4096 - 0xE0) * 4096 +
            ((0x80 + c.toNat / 64 % 64 - 0x80) * 64 +
              (0x80 + c.toNat % 64 - 0x80)) = c.toNat := by omega
        rw [e]
      · rw [if_neg h3]
        simp only [List.cons_append, List.nil_append]
        rw [utf8ParseOne, if_neg (by omega), if_neg (by omega),
          if_neg (by omega), if_neg (by omega),
          utf8Cont_three (0x80 + c.toNat / 4096 % 64)
            (0x80 + c.toNat / 64 % 64) (0x80 + c.toNat % 64) bs
            (by omega) (by omega) (by omega) (by omega) (by omega)
            (by omega)]
        simp only [Option.map_some', Option.some_inj]
        have e : (0xF0 + c.toNat / 262144 - 0xF0) * 262144 +
            ((0x80 + c.toNat / 4096 % 64 - 0x80) * 4096 +
              (0x80 + c.toNat / 64 % 64 - 0x80) * 64 +
              (0x80 + c.toNat % 64 - 0x80)) = c.toNat := by omega
        rw [e]

/-- Helper: a character encodes to at least one byte. -/
theorem utf8EncodeChar_ne_nil (c : Char) : utf8EncodeChar c ≠ [] := by
  simp only [utf8EncodeChar]
  split_ifs <;> simp

/-- Helper: with enough fuel, fueled decoding inverts encoding. -/
theorem utf8DecodeFuel_encode (s : List Char) :
    ∀ fuel : Nat, (utf8Encode s).length ≤ fuel →
      utf8DecodeFuel fuel (utf8Encode s) = some s := by
  induction s with
  | nil =>
    intro fuel _
    cases fuel with
    | zero => rfl
    | succ f => rfl
  | cons c cs ih =>
    intro fuel hfuel
    obtain ⟨b, bt, hsplit⟩ :=
      List.exists_cons_of_ne_nil (utf8EncodeChar_ne_nil c)
    rw [utf8Encode] at hfuel ⊢
    rw [hsplit] at hfuel ⊢
    simp only [List.cons_append, List.length_cons, List.length_append]
      at hfuel ⊢
    cases fuel with
    | zero => omega
    | succ f =>
      rw [utf8DecodeFuel]
      have hp : utf8ParseOne (b :: (bt ++ utf8Encode cs)) =
          some (c.toNat, utf8Encode cs) := by
        have := utf8ParseOne_encodeChar c (utf8Encode cs)
        rw [hsplit] at this
        simpa [List.cons_append] using this
      simp only [hp]
      rw [ih f (by omega)]
      simp only [Option.map_some', Option.some_inj]
      rw [Char.ofNat_toNat]

/-- Helper: UTF-8 decoding inverts UTF-8 encoding. -/
theorem utf8_roundtrip (s : List Char) :
    utf8Decode (utf8Encode s) = some s :=
  utf8DecodeFuel_encode s (utf8Encode s).length le_rfl

/-- C8: for every serialized SVG string (non-ASCII characters included),
the image-source payload built by `copyToCanvas` is the data-URI prefix
"data:image/svg+xml;base64," followed by the base64 encoding of the UTF-8
bytes of the string (`unescape(encodeURIComponent(s))` presents exactly
those bytes to `btoa`), and base64-decoding the part after the prefix and
reading it back as UTF-8 recovers the serialized string exactly. -/
theorem claim_C8_data_uri_roundtrip (svgData : List Char) :
    svgImageSrc svgData =
      svgDataUriPrefix ++ base64EncodeBytes (utf8Encode svgData) ∧
    (svgImageSrc svgData).take svgDataUriPrefix.length = svgDataUriPrefix ∧
    ((base64DecodeChars
        ((svgImageSrc svgData).drop svgDataUriPrefix.length)).bind
      utf8Decode) = some svgData := by
  refine ⟨rfl, List.take_left _ _, ?_⟩
  rw [show svgImageSrc svgData =
      svgDataUriPrefix ++ base64EncodeBytes (utf8Encode svgData) from rfl,
    List.drop_left, base64_roundtrip _ (utf8Encode_lt svgData)]
  exact utf8_roundtrip svgData

/-! ## Claim C10 — omitted options argument -/

/-- C10: the published declaration marks the options parameter optional
and every field has a default, but the implementation destructures the
options parameter with no default object; calling with the options
argument omitted therefore raises a TypeError during parameter binding,
before the body's try/catch is entered: the promise rejects with the
TypeError, no document mutation happens, and the `throwErrors`
suppression can never convert this failure into an empty-string result. -/
theorem claim_C10_options_omitted_typeerror (env : Env) :
    renderSvgAsImageCall env none =
      { result := .rejected .typeError, containerAdds := 0
        containerRemoves := 0 } :=
  rfl

end ReactImageSvg
